import Mathlib

/-!
Scan-filter-dispatch pipeline of `upload/folderUploadJob.go`: a shallow embedding of
`Job.ScanFolder` and `getGooglePhotosAlbumID`.

* The directory tree that `filepath.Walk` sees is a value of type `Node`; the walk itself
  (`Walk`, `walk`, the loop over the names of a directory) follows `path/filepath` of the Go
  standard library, as do `Clean`, `Join`, `Dir` and `Base` (Unix separators).
* Code the source file calls but does not contain (`filesystem.IsDir`, `filesystem.IsFile`,
  `NewFilter`/`IsAllowed`, the tracking service and the remote client) is a field of `World`;
  every theorem quantifies over it.
  During one scan a collaborator answers the same question the same way.
* Side effects are recorded in order in a list of `Event`s: writes to stderr and to the log,
  calls to the filter, the tracking service and the remote client, and sends on `uploadChan`.
* A send is recorded when it is made; blocking on a full channel is not modelled.
-/

set_option linter.unusedVariables false

namespace Upload

/-! ## Go values -/

/-- Go `error` values: the sentinel `filepath.SkipDir`, or any other error with its message. -/
inductive GoError where
  | SkipDir
  | errorString (msg : String)
  deriving DecidableEq, Repr

/-- Method `Error()` of an `error`. -/
def GoError.Error : GoError → String
  | .SkipDir => "skip this directory"
  | .errorString msg => msg

/-- The part of `os.FileInfo` the scan reads: `IsDir()`. -/
structure FileInfo where
  IsDir : Bool
  deriving DecidableEq, Repr

/-- Handle of a `*gphotos.Client`. -/
structure Client where
  ptr : Nat
  deriving DecidableEq, Repr

/-- Handle of a `*completeduploads.Service`. -/
structure TrackingService where
  ptr : Nat
  deriving DecidableEq, Repr

/-- Handle of a `*uploadurls.Service`. -/
structure UploadURLsService where
  ptr : Nat
  deriving DecidableEq, Repr

/-- The part of a remote album the scan reads: its `Id`. -/
structure Album where
  Id : String
  deriving DecidableEq, Repr

/-- Type `JobOptions` represents all the options that a job can have. -/
structure JobOptions where
  createAlbum : Bool
  deleteAfterUpload : Bool
  uploadVideos : Bool
  includePatterns : List String
  excludePatterns : List String
  deriving DecidableEq, Repr

/-- Type `Job` represents a job to upload all photos from the specified folder. -/
structure Job where
  client : Client
  trackingService : TrackingService
  uploadURLsService : UploadURLsService
  sourceFolder : String
  options : JobOptions
  deriving DecidableEq, Repr

/-- Function `NewJobOptions` creates a `JobOptions` from the submitted data. -/
def NewJobOptions (createAlbum deleteAfterUpload uploadVideos : Bool)
    (includePatterns excludePatterns : List String) : JobOptions :=
  { createAlbum := createAlbum
    deleteAfterUpload := deleteAfterUpload
    uploadVideos := uploadVideos
    includePatterns := includePatterns
    excludePatterns := excludePatterns }

/-- Function `NewFolderUploadJob` creates a job from the submitted data. -/
def NewFolderUploadJob (client : Client) (trackingService : TrackingService)
    (uploadURLsService : UploadURLsService) (fp : String) (opt : JobOptions) : Job :=
  { trackingService := trackingService
    uploadURLsService := uploadURLsService
    client := client
    sourceFolder := fp
    options := opt }

/-- The upload task `Item` as `ScanFolder` builds it. -/
structure Item where
  client : Client
  path : String
  album : String
  deleteOnSuccess : Bool
  deriving DecidableEq, Repr

/-- A `Filter` as the scan uses it: the method `IsAllowed`. -/
structure Filter where
  IsAllowed : String → Bool

/-- Everything the source file calls but does not define. -/
structure World where
  /-- Go `filesystem.IsDir` -/
  IsDir : String → Bool
  /-- Go `filesystem.IsFile` -/
  IsFile : String → Bool
  /-- Go `NewFilter(includePatterns, excludePatterns, uploadVideos)` -/
  NewFilter : List String → List String → Bool → Filter
  /-- Go `(*completeduploads.Service).IsAlreadyUploaded`, returning `(bool, error)` -/
  IsAlreadyUploaded : TrackingService → String → Bool × Option GoError
  /-- Go `(*gphotos.Client).GetOrCreateAlbumByName`, returning an album or an error -/
  GetOrCreateAlbumByName : Client → String → Except GoError Album

/-- Observable effects, in the order they happen. -/
inductive Event where
  /-- A write `fmt.Fprintf(os.Stderr, ...)` -/
  | stderr (msg : String)
  /-- A line written by `log.Println` / `log.Printf` -/
  | log (msg : String)
  /-- a call `filter.IsAllowed(fp)` -/
  | isAllowed (fp : String)
  /-- a call `job.trackingService.IsAlreadyUploaded(fp)` -/
  | isAlreadyUploaded (s : TrackingService) (fp : String)
  /-- a call `c.GetOrCreateAlbumByName(name)` -/
  | getOrCreateAlbumByName (c : Client) (name : String)
  /-- A send `uploadChan <- item` -/
  | send (item : Item)
  deriving DecidableEq, Repr

/-- The task a send event carries. -/
def Event.item? : Event → Option Item
  | .send item => some item
  | _ => none

/-- The tasks published on the queue, in order. -/
def sent (evs : List Event) : List Item := evs.filterMap Event.item?

/-- The paths of the published tasks, in order. -/
def sentPaths (evs : List Event) : List String := (sent evs).map Item.path

/-- Whether an event is a call to the filter, the tracking store or the remote client. -/
def Event.isCall : Event → Bool
  | .isAllowed _ => true
  | .isAlreadyUploaded _ _ => true
  | .getOrCreateAlbumByName _ _ => true
  | _ => false

/-- Whether an event is a call to the remote client. -/
def Event.isClientCall : Event → Bool
  | .getOrCreateAlbumByName _ _ => true
  | _ => false

/-- Whether an event is a line written to the log. -/
def Event.isLog : Event → Bool
  | .log _ => true
  | _ => false

/-! ## `path/filepath` (Unix) -/

/-- The elements of a path between separators: `a//b` gives `a`, the empty element, `b`. -/
def splitSep : List Char → List (List Char)
  | [] => [[]]
  | c :: cs =>
    match splitSep cs with
    | [] => [[]]
    | h :: t => if c = '/' then [] :: h :: t else (c :: h) :: t

/-- One element of `Clean`'s loop; `out` holds the elements written so far, last first. -/
def cleanStep (rooted : Bool) (out : List (List Char)) (e : List Char) : List (List Char) :=
  if e = [] ∨ e = ['.'] then out
  else if e = ['.', '.'] then
    match out with
    | top :: rest => if top = ['.', '.'] then e :: out else rest
    | [] => if rooted then [] else [e]
  else e :: out

/-- Writes elements separated by `/`. -/
def joinSep : List (List Char) → List Char
  | [] => []
  | [e] => e
  | e :: es => e ++ '/' :: joinSep es

/-- Go `filepath.Clean` on a list of characters. -/
def cleanChars (path : List Char) : List Char :=
  match path with
  | [] => ['.']
  | c :: _ =>
    let rooted : Bool := c = '/'
    let out := joinSep ((splitSep path).foldl (cleanStep rooted) []).reverse
    if rooted then '/' :: out
    else if out = [] then ['.'] else out

/-- Go `filepath.Clean`: the shortest path name equivalent to `path` by lexical processing. -/
def Clean (path : String) : String := ⟨cleanChars path.data⟩

/-- Go `filepath.Join` of a directory path and a name. -/
def Join (path name : String) : String :=
  if path ≠ "" then Clean (path ++ "/" ++ name)
  else if name ≠ "" then Clean name
  else ""

/-- The prefix of a path up to and including its last separator. -/
def uptoLastSep : List Char → List Char
  | [] => []
  | c :: cs =>
    match uptoLastSep cs with
    | [] => if c = '/' then [c] else []
    | r => c :: r

/-- Go `filepath.Dir`: all but the last element of `path`, cleaned. -/
def Dir (path : String) : String := ⟨cleanChars (uptoLastSep path.data)⟩

/-- Go `filepath.Base` on a list of characters. -/
def baseChars (path : List Char) : List Char :=
  match path with
  | [] => ['.']
  | _ =>
    let stripped := (path.reverse.dropWhile (fun c => c = '/')).reverse
    let last := (stripped.reverse.takeWhile (fun c => c ≠ '/')).reverse
    if last = [] then ['/'] else last

/-- Go `filepath.Base`: the last element of `path`. -/
def Base (path : String) : String := ⟨baseChars path.data⟩

/-! ## The tree `filepath.Walk` sees -/

/-- A directory entry as the walk meets it. -/
inductive Node where
  /-- Here `Lstat` fails with `err`: no `FileInfo`. -/
  | lstatError (err : GoError)
  /-- Here `Lstat` succeeds and `IsDir()` is false. -/
  | file
  /-- Here `Lstat` succeeds, `IsDir()` is true, and reading the names fails with `err`. -/
  | unreadableDir (err : GoError)
  /-- Here `Lstat` succeeds, `IsDir()` is true; the names in the order read, each with its entry. -/
  | dir (children : List (String × Node))

/-- The result of `Lstat` on an entry. -/
def Node.lstat : Node → Except GoError FileInfo
  | .lstatError err => .error err
  | .file => .ok ⟨false⟩
  | .unreadableDir _ => .ok ⟨true⟩
  | .dir _ => .ok ⟨true⟩

/-- Whether `Lstat` gives metadata for the entry. -/
def Node.hasInfo : Node → Bool
  | .lstatError _ => false
  | _ => true

/-- Whether `Lstat` succeeds with `IsDir()` true. -/
def Node.isDir : Node → Bool
  | .unreadableDir _ => true
  | .dir _ => true
  | _ => false

/-- The type `filepath.WalkFunc`, with the effects of a call. -/
abbrev WalkFunc := String → Option FileInfo → Option GoError → List Event × Option GoError

/-- Whether the loop over a directory's names returns after the entry `child` gave `err`. -/
def stops (child : Node) (err : Option GoError) : Bool :=
  match err with
  | none => false
  | some e =>
    match child with
    | .lstatError _ => e ≠ GoError.SkipDir
    | _ => !child.isDir || e ≠ GoError.SkipDir

mutual
/-- Go `filepath.walk`: descends `path`, calling `walkFn`; the names of a directory are read
before `walkFn` is called on it, and a read error is handed to that one call. An entry whose
`Lstat` failed is handed to `walkFn` without metadata, as the caller of `walk` does. -/
def walk (walkFn : WalkFunc) (path : String) : Node → List Event × Option GoError
  | .lstatError err => walkFn path none (some err)
  | .file => walkFn path (some ⟨false⟩) none
  | .unreadableDir err => walkFn path (some ⟨true⟩) (some err)
  | .dir children =>
    let r := walkFn path (some ⟨true⟩) none
    match r.2 with
    | some err1 => (r.1, some err1)
    | none =>
      let rs := walkNames walkFn path children
      (r.1 ++ rs.1, rs.2)
/-- The loop `for _, name := range names` of `filepath.walk`. -/
def walkNames (walkFn : WalkFunc) (path : String) :
    List (String × Node) → List Event × Option GoError
  | [] => ([], none)
  | (name, child) :: rest =>
    let r := walk walkFn (Join path name) child
    if stops child r.2 then r
    else
      let rs := walkNames walkFn path rest
      (r.1 ++ rs.1, rs.2)
end

/-- Go `filepath.Walk(root, walkFn)` on the tree `tree`. -/
def Walk (tree : Node) (root : String) (walkFn : WalkFunc) : List Event × Option GoError :=
  let r := walk walkFn root tree
  if r.2 = some GoError.SkipDir then (r.1, none) else r

/-! ## The source file -/

/-- Function `getGooglePhotosAlbumID` returns the Id of an album with the specified name, or
the empty string. -/
def getGooglePhotosAlbumID (w : World) (name : String) (c : Client) : List Event × String :=
  if name = "" then ([], "")
  else
    match w.GetOrCreateAlbumByName c name with
    | .error err =>
      ([.getOrCreateAlbumByName c name,
        .log ("Album creation failed: name=" ++ name ++ ", error=" ++ err.Error)], "")
    | .ok album => ([.getOrCreateAlbumByName c name], album.Id)

/-- Lines 104-108 of the function literal: `albumID`, with the effects of computing it. -/
def albumID (w : World) (job : Job) (fp : String) : List Event × String :=
  if job.options.createAlbum then
    getGooglePhotosAlbumID w (Base (Dir fp)) job.client
  else ([], "")

/-- Lines 111-116 of the function literal: the item built for `fp`. -/
def uploadItem (w : World) (job : Job) (fp : String) : Item :=
  { client := job.client
    path := fp
    album := (albumID w job fp).2
    deleteOnSuccess := job.options.deleteAfterUpload }

/-- The function literal `ScanFolder` passes to `filepath.Walk`. It captures `job`, `filter`
and the variable `err` of `ScanFolder`; the `err` assigned from `IsAlreadyUploaded` is a new
variable of the literal's own block (`errT` here). -/
def walkFn (w : World) (job : Job) (filter : Filter) (err : Option GoError)
    (fp : String) (fi : Option FileInfo) (errP : Option GoError) :
    List Event × Option GoError :=
  match err with
  | some e => ([.stderr ("error for " ++ fp ++ ": " ++ e.Error ++ "\n")], none)
  | none =>
    match fi with
    | none => ([.stderr ("error for " ++ fp ++ ": FileInfo is nil\n")], none)
    | some fi =>
      if !filter.IsAllowed fp then
        ([.isAllowed fp], if fi.IsDir then some .SkipDir else none)
      else if !w.IsFile fp then
        ([.isAllowed fp], none)
      else
        let calls : List Event := [.isAllowed fp, .isAlreadyUploaded job.trackingService fp]
        match w.IsAlreadyUploaded job.trackingService fp with
        | (_, some errT) =>
          (calls ++ [.log errT.Error] ++ (albumID w job fp).1 ++ [.send (uploadItem w job fp)],
            none)
        | (true, none) =>
          (calls ++ [.log ("already uploaded: " ++ fp ++ ": skipping file...\n")], none)
        | (false, none) =>
          (calls ++ (albumID w job fp).1 ++ [.send (uploadItem w job fp)], none)

/-- Method `ScanFolder` with the traversal primitive as a parameter. -/
def ScanFolderWith (w : World) (Walk : String → WalkFunc → List Event × Option GoError)
    (job : Job) : List Event × Option GoError :=
  let err : Option GoError := none
  if !w.IsDir job.sourceFolder then
    ([], some (.errorString (job.sourceFolder ++ " is not a folder")))
  else
    let filter := w.NewFilter job.options.includePatterns job.options.excludePatterns
      job.options.uploadVideos
    let r := Walk job.sourceFolder (walkFn w job filter err)
    match r.2 with
    | some errW => (r.1 ++ [.log ("walk error [" ++ errW.Error ++ "]")], none)
    | none => (r.1, none)

/-- Method `Job.ScanFolder` on the tree `tree`: the events in order and the returned error. -/
def ScanFolder (w : World) (tree : Node) (job : Job) : List Event × Option GoError :=
  ScanFolderWith w (Walk tree) job

/-- The filter `ScanFolder` builds for a job. -/
def jobFilter (w : World) (job : Job) : Filter :=
  w.NewFilter job.options.includePatterns job.options.excludePatterns job.options.uploadVideos

/-! ## The tree as the claims describe it -/

mutual
/-- The pre-order listing of the paths of a tree: a directory before its children, the children
in the order their names are read. -/
def listing (path : String) : Node → List String
  | .dir children => path :: listingNames path children
  | _ => [path]
/-- The listings of the children of the directory `path`, one after the other. -/
def listingNames (path : String) : List (String × Node) → List String
  | [] => []
  | (name, child) :: rest => listing (Join path name) child ++ listingNames path rest
end

/-- An entry of a tree: its path, what is on disk there, and whether every directory on the
chain from the root down to its parent is allowed by the filter. -/
structure Entry where
  path : String
  node : Node
  chainAllowed : Bool

mutual
/-- The entries of a tree in pre-order; `chain` tells whether every directory above `path` is
allowed. -/
def entries (allowed : String → Bool) (chain : Bool) (path : String) : Node → List Entry
  | .dir children =>
    ⟨path, .dir children, chain⟩ :: entriesNames allowed (chain && allowed path) path children
  | .lstatError err => [⟨path, .lstatError err, chain⟩]
  | .file => [⟨path, .file, chain⟩]
  | .unreadableDir err => [⟨path, .unreadableDir err, chain⟩]
/-- The entries below the directory `path`, child after child. -/
def entriesNames (allowed : String → Bool) (chain : Bool) (path : String) :
    List (String × Node) → List Entry
  | [] => []
  | (name, child) :: rest =>
    entries allowed chain (Join path name) child ++ entriesNames allowed chain path rest
end

/-- The entries of the tree a job scans, with the job's filter. -/
def jobEntries (w : World) (tree : Node) (job : Job) : List Entry :=
  entries (jobFilter w job).IsAllowed true job.sourceFolder tree

/-- Whether `IsAlreadyUploaded(fp)` answers `(true, nil)`. -/
def alreadyUploaded (w : World) (job : Job) (fp : String) : Bool :=
  w.IsAlreadyUploaded job.trackingService fp = (true, none)

/-- The three conditions on a path itself: allowed by the filter, a regular file, and not
successfully reported as already uploaded. -/
def accepts (w : World) (job : Job) (fp : String) : Bool :=
  (jobFilter w job).IsAllowed fp && w.IsFile fp && !alreadyUploaded w job fp

/-- The conditions under which an entry is expected on the queue: its chain of directories is
allowed, it has metadata, and its path is accepted. -/
def eligible (w : World) (job : Job) (e : Entry) : Bool :=
  e.chainAllowed && e.node.hasInfo && accepts w job e.path

/-! ## Scenarios -/

/-- The world `w` with the tracking service answering `r` for every path. -/
def World.withTracking (w : World) (r : Bool × Option GoError) : World :=
  { w with IsAlreadyUploaded := fun _ _ => r }

/-- The tree of the specification's scenario below `/src`: `vacation/photo1.jpg` and
`vacation/photo2.mp4`. -/
def vacationTree : Node :=
  .dir [("vacation", .dir [("photo1.jpg", .file), ("photo2.mp4", .file)])]

/-- The scenario's collaborators: the filter lets videos through only when asked to, nothing
is recorded as uploaded, and the album `vacation` resolves to `C1`. -/
def vacationWorld : World where
  IsDir := fun p => p = "/src" || p = "/src/vacation"
  IsFile := fun p => p = "/src/vacation/photo1.jpg" || p = "/src/vacation/photo2.mp4"
  NewFilter := fun _ _ uploadVideos => ⟨fun p => uploadVideos || p != "/src/vacation/photo2.mp4"⟩
  IsAlreadyUploaded := fun _ _ => (false, none)
  GetOrCreateAlbumByName := fun _ name =>
    if name = "vacation" then .ok ⟨"C1"⟩ else .error (.errorString "album not found")

/-- The scenario's job: create albums, keep the files, no videos, no patterns. -/
def vacationJob : Job :=
  NewFolderUploadJob ⟨1⟩ ⟨2⟩ ⟨3⟩ "/src" (NewJobOptions true false false [] [])

/-- A tree below `/src` with one file in the directory `raw`. -/
def rawTree : Node := .dir [("raw", .dir [("a.jpg", .file)])]

/-- Collaborators whose filter disallows the directory `/src/raw` and nothing else. -/
def rawWorld : World where
  IsDir := fun p => p = "/src" || p = "/src/raw"
  IsFile := fun p => p = "/src/raw/a.jpg"
  NewFilter := fun _ _ _ => ⟨fun p => p != "/src/raw"⟩
  IsAlreadyUploaded := fun _ _ => (false, none)
  GetOrCreateAlbumByName := fun _ name => .ok ⟨name⟩

/-- A job on `/src` without album creation. -/
def rawJob : Job :=
  NewFolderUploadJob ⟨1⟩ ⟨2⟩ ⟨3⟩ "/src" (NewJobOptions false false false [] [])

/-- A tree below `/src` whose directory `raw` cannot be read. -/
def lockedTree : Node :=
  .dir [("raw", .unreadableDir (.errorString "open /src/raw: permission denied"))]

/-- The world `w` with a remote client that fails to resolve every album. -/
def World.withoutAlbums (w : World) : World :=
  { w with GetOrCreateAlbumByName := fun _ _ => .error (.errorString "album creation failed") }

/-- Collaborators like `vacationWorld` whose tracking service fails, answering `true`. -/
def brokenTrackingWorld : World :=
  vacationWorld.withTracking (true, some (.errorString "tracking store unavailable"))

/-! ## The function literal, entry by entry -/

theorem sent_nil : sent [] = [] := rfl

theorem sent_append (a b : List Event) : sent (a ++ b) = sent a ++ sent b := by
  simp [sent]

theorem sent_cons_send (item : Item) (l : List Event) :
    sent (Event.send item :: l) = item :: sent l := by
  simp [sent, Event.item?]

theorem sent_cons_stderr (msg : String) (l : List Event) :
    sent (Event.stderr msg :: l) = sent l := by
  simp [sent, Event.item?]

theorem sent_cons_log (msg : String) (l : List Event) :
    sent (Event.log msg :: l) = sent l := by
  simp [sent, Event.item?]

theorem sent_cons_isAllowed (fp : String) (l : List Event) :
    sent (Event.isAllowed fp :: l) = sent l := by
  simp [sent, Event.item?]

theorem sent_cons_isAlreadyUploaded (t : TrackingService) (fp : String) (l : List Event) :
    sent (Event.isAlreadyUploaded t fp :: l) = sent l := by
  simp [sent, Event.item?]

theorem sent_cons_getOrCreateAlbumByName (c : Client) (name : String) (l : List Event) :
    sent (Event.getOrCreateAlbumByName c name :: l) = sent l := by
  simp [sent, Event.item?]

theorem sent_getGooglePhotosAlbumID (w : World) (name : String) (c : Client) :
    sent (getGooglePhotosAlbumID w name c).1 = [] := by
  unfold getGooglePhotosAlbumID
  split
  · rfl
  · split <;> simp [sent_cons_getOrCreateAlbumByName, sent_cons_log, sent_nil]

theorem sent_albumID (w : World) (job : Job) (fp : String) :
    sent (albumID w job fp).1 = [] := by
  unfold albumID
  split
  · exact sent_getGooglePhotosAlbumID w _ _
  · rfl

/-- What an entry with metadata puts on the queue. -/
theorem walkFn_sent (w : World) (job : Job) (fp : String) (i : FileInfo)
    (errP : Option GoError) :
    sent (walkFn w job (jobFilter w job) none fp (some i) errP).1
      = if accepts w job fp then [uploadItem w job fp] else [] := by
  have ha := sent_albumID w job fp
  unfold walkFn accepts alreadyUploaded
  cases hA : (jobFilter w job).IsAllowed fp
  · simp [sent_cons_isAllowed, sent_nil]
  · cases hF : w.IsFile fp
    · simp [sent_cons_isAllowed, sent_nil]
    · rcases hU : w.IsAlreadyUploaded job.trackingService fp with ⟨b, _ | e⟩
      · cases b <;>
          simp [sent_append, ha, sent_cons_isAllowed, sent_cons_isAlreadyUploaded,
            sent_cons_log, sent_cons_send, sent_nil]
      · simp [sent_append, ha, sent_cons_isAllowed, sent_cons_isAlreadyUploaded,
          sent_cons_log, sent_cons_send, sent_nil]

/-- What the function literal returns for an entry with metadata. -/
theorem walkFn_ret (w : World) (job : Job) (fp : String) (i : FileInfo)
    (errP : Option GoError) :
    (walkFn w job (jobFilter w job) none fp (some i) errP).2
      = if (jobFilter w job).IsAllowed fp = false ∧ i.IsDir = true then some GoError.SkipDir
        else none := by
  unfold walkFn
  cases hA : (jobFilter w job).IsAllowed fp
  · cases hD : i.IsDir <;> simp [hD]
  · cases hF : w.IsFile fp
    · simp
    · rcases hU : w.IsAlreadyUploaded job.trackingService fp with ⟨b, _ | e⟩
      · cases b <;> simp
      · simp

/-- An entry without metadata: one line on stderr, nothing else. -/
theorem walkFn_noInfo (w : World) (job : Job) (filter : Filter) (fp : String)
    (errP : Option GoError) :
    walkFn w job filter none fp none errP
      = ([.stderr ("error for " ++ fp ++ ": FileInfo is nil\n")], none) := rfl

/-! ## The listing and the entries -/

mutual
theorem entries_map_path (allowed : String → Bool) :
    ∀ (chain : Bool) (path : String) (n : Node),
      (entries allowed chain path n).map Entry.path = listing path n
  | chain, path, .lstatError err => by simp [entries, listing]
  | chain, path, .file => by simp [entries, listing]
  | chain, path, .unreadableDir err => by simp [entries, listing]
  | chain, path, .dir children => by
    simp [entries, listing, entriesNames_map_path allowed (chain && allowed path) path children]
theorem entriesNames_map_path (allowed : String → Bool) :
    ∀ (chain : Bool) (path : String) (cs : List (String × Node)),
      (entriesNames allowed chain path cs).map Entry.path = listingNames path cs
  | chain, path, [] => by simp [entriesNames, listingNames]
  | chain, path, (name, child) :: rest => by
    simp [entriesNames, listingNames, entries_map_path allowed chain (Join path name) child,
      entriesNames_map_path allowed chain path rest]
end

mutual
theorem entries_chain_false (allowed : String → Bool) :
    ∀ (path : String) (n : Node), ∀ e ∈ entries allowed false path n, e.chainAllowed = false
  | path, .lstatError err => by simp [entries]
  | path, .file => by simp [entries]
  | path, .unreadableDir err => by simp [entries]
  | path, .dir children => by
    intro e he
    simp only [entries, List.mem_cons, Bool.false_and] at he
    rcases he with rfl | he
    · rfl
    · exact entriesNames_chain_false allowed path children e he
theorem entriesNames_chain_false (allowed : String → Bool) :
    ∀ (path : String) (cs : List (String × Node)),
      ∀ e ∈ entriesNames allowed false path cs, e.chainAllowed = false
  | path, [] => by simp [entriesNames]
  | path, (name, child) :: rest => by
    intro e he
    simp only [entriesNames, List.mem_append] at he
    rcases he with he | he
    · exact entries_chain_false allowed (Join path name) child e he
    · exact entriesNames_chain_false allowed path rest e he
end

theorem entriesNames_false_eligible (w : World) (job : Job) (allowed : String → Bool)
    (path : String) (cs : List (String × Node)) :
    (entriesNames allowed false path cs).filter (eligible w job) = [] := by
  rw [List.filter_eq_nil_iff]
  intro e he
  simp [eligible, entriesNames_chain_false allowed path cs e he]

/-! ## The walk with the function literal -/

theorem stops_skipDir (child : Node) (c : Prop) [Decidable c] :
    stops child (if c ∧ child.isDir = true then some GoError.SkipDir else none) = false := by
  by_cases h : c ∧ child.isDir = true
  · rw [if_pos h]
    cases child <;> simp_all [stops, Node.isDir]
  · rw [if_neg h]
    rfl

mutual
/-- The tasks a walk publishes and what it returns, entry by entry. -/
theorem walk_spec (w : World) (job : Job) :
    ∀ (path : String) (n : Node),
      sent (walk (walkFn w job (jobFilter w job) none) path n).1
          = ((entries (jobFilter w job).IsAllowed true path n).filter (eligible w job)).map
              (fun e => uploadItem w job e.path)
        ∧ (walk (walkFn w job (jobFilter w job) none) path n).2
          = if (jobFilter w job).IsAllowed path = false ∧ n.isDir = true
            then some GoError.SkipDir else none
  | path, .lstatError err => by
    simp [walk, entries, walkFn_noInfo, sent_cons_stderr, sent_nil, eligible, Node.hasInfo,
      Node.isDir]
  | path, .file => by
    refine ⟨?_, ?_⟩
    · simp only [walk, walkFn_sent, entries, List.filter_cons, List.filter_nil, eligible,
        Node.hasInfo, Bool.true_and]
      split <;> simp
    · simp [walk, walkFn_ret, Node.isDir]
  | path, .unreadableDir err => by
    refine ⟨?_, ?_⟩
    · simp only [walk, walkFn_sent, entries, List.filter_cons, List.filter_nil, eligible,
        Node.hasInfo, Bool.true_and]
      split <;> simp
    · simp [walk, walkFn_ret, Node.isDir]
  | path, .dir children => by
    have ih := walkNames_spec w job path children
    have hs := walkFn_sent w job path ⟨true⟩ none
    have hr := walkFn_ret w job path ⟨true⟩ none
    cases hA : (jobFilter w job).IsAllowed path
    · have hr1 : (walkFn w job (jobFilter w job) none path (some ⟨true⟩) none).2
          = some GoError.SkipDir := by rw [hr]; simp [hA]
      have hacc : accepts w job path = false := by simp [accepts, hA]
      simp only [hacc] at hs
      simp only [walk, hr1, entries, hA, Bool.and_false, List.filter_cons,
        entriesNames_false_eligible, eligible, hacc, Node.isDir, Node.hasInfo]
      simp [hs]
    · have hr1 : (walkFn w job (jobFilter w job) none path (some ⟨true⟩) none).2 = none := by
        rw [hr]; simp [hA]
      simp only [walk, hr1, sent_append, ih.1, ih.2, hs, entries, hA, Bool.and_true,
        List.filter_cons, eligible, Node.hasInfo, Bool.true_and, Node.isDir]
      refine ⟨?_, by simp⟩
      split <;> simp
/-- The tasks the loop over a directory's names publishes; the loop never returns early. -/
theorem walkNames_spec (w : World) (job : Job) :
    ∀ (path : String) (cs : List (String × Node)),
      sent (walkNames (walkFn w job (jobFilter w job) none) path cs).1
          = ((entriesNames (jobFilter w job).IsAllowed true path cs).filter
              (eligible w job)).map (fun e => uploadItem w job e.path)
        ∧ (walkNames (walkFn w job (jobFilter w job) none) path cs).2 = none
  | path, [] => by simp [walkNames, entriesNames, sent_nil]
  | path, (name, child) :: rest => by
    have ih1 := walk_spec w job (Join path name) child
    have ih2 := walkNames_spec w job path rest
    have hst := stops_skipDir child ((jobFilter w job).IsAllowed (Join path name) = false)
    rw [← ih1.2] at hst
    simp only [walkNames, hst, entriesNames, List.filter_append, List.map_append, ih2.2]
    refine ⟨?_, by simp⟩
    simp only [Bool.false_eq_true, if_false]
    rw [sent_append, ih1.1, ih2.1]
end

mutual
/-- A property of every event of the function handed to a walk holds of every event of it. -/
theorem walk_forall (P : Event → Prop) (fn : WalkFunc)
    (h : ∀ fp fi errP, ∀ ev ∈ (fn fp fi errP).1, P ev) :
    ∀ (path : String) (n : Node), ∀ ev ∈ (walk fn path n).1, P ev
  | path, .lstatError err => by simpa [walk] using h path none (some err)
  | path, .file => by simpa [walk] using h path (some ⟨false⟩) none
  | path, .unreadableDir err => by simpa [walk] using h path (some ⟨true⟩) (some err)
  | path, .dir children => by
    intro ev hev
    simp only [walk] at hev
    split at hev
    · exact h path (some ⟨true⟩) none ev hev
    · rcases List.mem_append.1 hev with hev | hev
      · exact h path (some ⟨true⟩) none ev hev
      · exact walkNames_forall P fn h path children ev hev
theorem walkNames_forall (P : Event → Prop) (fn : WalkFunc)
    (h : ∀ fp fi errP, ∀ ev ∈ (fn fp fi errP).1, P ev) :
    ∀ (path : String) (cs : List (String × Node)), ∀ ev ∈ (walkNames fn path cs).1, P ev
  | path, [] => by simp [walkNames]
  | path, (name, child) :: rest => by
    intro ev hev
    simp only [walkNames] at hev
    split at hev
    · exact walk_forall P fn h (Join path name) child ev hev
    · rcases List.mem_append.1 hev with hev | hev
      · exact walk_forall P fn h (Join path name) child ev hev
      · exact walkNames_forall P fn h path rest ev hev
end

/-! ## `ScanFolder` as a whole -/

theorem Walk_walkFn (w : World) (job : Job) (tree : Node) (root : String) :
    Walk tree root (walkFn w job (jobFilter w job) none)
      = ((walk (walkFn w job (jobFilter w job) none) root tree).1, none) := by
  have h := (walk_spec w job root tree).2
  unfold Walk
  by_cases hc : (jobFilter w job).IsAllowed root = false ∧ tree.isDir = true
  · rw [if_pos hc] at h
    simp [h]
  · rw [if_neg hc] at h
    simp only [h]
    rw [if_neg (by simp)]
    exact Prod.ext rfl h

theorem ScanFolder_of_not_isDir (w : World) (tree : Node) (job : Job)
    (h : w.IsDir job.sourceFolder = false) :
    ScanFolder w tree job
      = ([], some (.errorString (job.sourceFolder ++ " is not a folder"))) := by
  simp [ScanFolder, ScanFolderWith, h]

theorem ScanFolder_of_isDir (w : World) (tree : Node) (job : Job)
    (h : w.IsDir job.sourceFolder = true) :
    ScanFolder w tree job
      = ((walk (walkFn w job (jobFilter w job) none) job.sourceFolder tree).1, none) := by
  have hW := Walk_walkFn w job tree job.sourceFolder
  unfold jobFilter at hW
  simp [ScanFolder, ScanFolderWith, h, hW, jobFilter]

/-- The queue after a scan: the eligible entries of the tree, in pre-order. -/
theorem ScanFolder_sent (w : World) (tree : Node) (job : Job)
    (h : w.IsDir job.sourceFolder = true) :
    sent (ScanFolder w tree job).1
      = ((jobEntries w tree job).filter (eligible w job)).map
          (fun e => uploadItem w job e.path) := by
  rw [ScanFolder_of_isDir w tree job h]
  exact (walk_spec w job job.sourceFolder tree).1

theorem ScanFolder_mem_sent (w : World) (tree : Node) (job : Job) (item : Item)
    (h : item ∈ sent (ScanFolder w tree job).1) :
    ∃ e ∈ jobEntries w tree job, eligible w job e = true ∧ item = uploadItem w job e.path := by
  cases hd : w.IsDir job.sourceFolder
  · rw [ScanFolder_of_not_isDir w tree job hd] at h
    simp [sent_nil] at h
  · rw [ScanFolder_sent w tree job hd] at h
    rcases List.mem_map.1 h with ⟨e, he, rfl⟩
    rcases List.mem_filter.1 he with ⟨he1, he2⟩
    exact ⟨e, he1, he2, rfl⟩

theorem ScanFolder_mem_sentPaths (w : World) (tree : Node) (job : Job) (F : String)
    (h : F ∈ sentPaths (ScanFolder w tree job).1) :
    ∃ e ∈ jobEntries w tree job, eligible w job e = true ∧ e.path = F := by
  rcases List.mem_map.1 h with ⟨item, hi, rfl⟩
  rcases ScanFolder_mem_sent w tree job item hi with ⟨e, he, hel, rfl⟩
  exact ⟨e, he, hel, rfl⟩

theorem ScanFolder_sentPaths (w : World) (tree : Node) (job : Job)
    (h : w.IsDir job.sourceFolder = true) :
    sentPaths (ScanFolder w tree job).1
      = ((jobEntries w tree job).filter (eligible w job)).map Entry.path := by
  unfold sentPaths
  rw [ScanFolder_sent w tree job h, List.map_map]
  rfl

theorem jobEntries_map_path (w : World) (tree : Node) (job : Job) :
    (jobEntries w tree job).map Entry.path = listing job.sourceFolder tree :=
  entries_map_path _ true job.sourceFolder tree

theorem accepts_iff (w : World) (job : Job) (fp : String) :
    accepts w job fp = true ↔
      (jobFilter w job).IsAllowed fp = true ∧ w.IsFile fp = true ∧
        w.IsAlreadyUploaded job.trackingService fp ≠ (true, none) := by
  simp [accepts, alreadyUploaded, and_assoc]

theorem eligible_iff (w : World) (job : Job) (e : Entry) :
    eligible w job e = true ↔
      e.chainAllowed = true ∧ e.node.hasInfo = true ∧ accepts w job e.path = true := by
  simp [eligible, and_assoc]

theorem baseChars_ne_nil (path : List Char) : baseChars path ≠ [] := by
  unfold baseChars
  split
  · simp
  · simp only
    split
    · simp
    · assumption

theorem Base_ne_empty (path : String) : Base path ≠ "" := by
  intro h
  exact baseChars_ne_nil path.data (congrArg String.data h)

theorem albumID_of_not_createAlbum (w : World) (job : Job) (fp : String)
    (h : job.options.createAlbum = false) : albumID w job fp = ([], "") := by
  simp [albumID, h]

theorem albumID_of_ok (w : World) (job : Job) (fp : String) (a : Album)
    (h : job.options.createAlbum = true)
    (ha : w.GetOrCreateAlbumByName job.client (Base (Dir fp)) = .ok a) :
    (albumID w job fp).2 = a.Id := by
  simp [albumID, h, getGooglePhotosAlbumID, Base_ne_empty, ha]

theorem albumID_of_error (w : World) (job : Job) (fp : String) (err : GoError)
    (h : job.options.createAlbum = true)
    (ha : w.GetOrCreateAlbumByName job.client (Base (Dir fp)) = .error err) :
    (albumID w job fp).2 = "" := by
  simp [albumID, h, getGooglePhotosAlbumID, Base_ne_empty, ha]

theorem walkFn_no_client_call (w : World) (job : Job) (filter : Filter)
    (h : job.options.createAlbum = false) (fp : String) (fi : Option FileInfo)
    (errP : Option GoError) :
    ∀ ev ∈ (walkFn w job filter none fp fi errP).1, ev.isClientCall = false := by
  have ha := albumID_of_not_createAlbum w job fp h
  unfold walkFn
  cases fi with
  | none => simp [Event.isClientCall]
  | some i =>
    cases hA : filter.IsAllowed fp
    · simp [Event.isClientCall]
    · cases hF : w.IsFile fp
      · simp [Event.isClientCall]
      · rcases hU : w.IsAlreadyUploaded job.trackingService fp with ⟨b, _ | e⟩
        · cases b <;> simp [ha, Event.isClientCall]
        · simp [ha, Event.isClientCall]

mutual
/-- Below a disallowed directory of the tree, every path belongs to an entry that is the
directory itself or has a disallowed directory above it. -/
theorem entries_below_disallowed (allowed : String → Bool) :
    ∀ (chain : Bool) (path : String) (n : Node) (D : Entry),
      D ∈ entries allowed chain path n → D.node.isDir = true → allowed D.path = false →
      ∀ q ∈ listing D.path D.node,
        ∃ e ∈ entries allowed chain path n, e.path = q ∧ (q = D.path ∨ e.chainAllowed = false)
  | chain, path, .lstatError err => by
    intro D hD hdir
    simp only [entries, List.mem_singleton] at hD
    subst hD
    simp [Node.isDir] at hdir
  | chain, path, .file => by
    intro D hD hdir
    simp only [entries, List.mem_singleton] at hD
    subst hD
    simp [Node.isDir] at hdir
  | chain, path, .unreadableDir err => by
    intro D hD _ _ q hq
    simp only [entries, List.mem_singleton] at hD
    subst hD
    simp only [listing, List.mem_singleton] at hq
    exact ⟨⟨path, .unreadableDir err, chain⟩, by simp [entries], hq.symm, Or.inl hq⟩
  | chain, path, .dir children => by
    intro D hD hdir hdis q hq
    simp only [entries, List.mem_cons] at hD
    rcases hD with rfl | hD
    · simp only [listing, List.mem_cons] at hq
      rcases hq with rfl | hq
      · exact ⟨⟨q, .dir children, chain⟩, by simp [entries], rfl, Or.inl rfl⟩
      · simp only at hdis
        rw [← entriesNames_map_path allowed false] at hq
        rcases List.mem_map.1 hq with ⟨e, he, rfl⟩
        refine ⟨e, ?_, rfl, Or.inr (entriesNames_chain_false allowed _ _ e he)⟩
        simp only [entries, hdis, Bool.and_false, List.mem_cons]
        exact Or.inr he
    · rcases entriesNames_below_disallowed allowed (chain && allowed path) path children D hD
        hdir hdis q hq with ⟨e, he, h1, h2⟩
      exact ⟨e, by simp only [entries, List.mem_cons]; exact Or.inr he, h1, h2⟩
theorem entriesNames_below_disallowed (allowed : String → Bool) :
    ∀ (chain : Bool) (path : String) (cs : List (String × Node)) (D : Entry),
      D ∈ entriesNames allowed chain path cs → D.node.isDir = true → allowed D.path = false →
      ∀ q ∈ listing D.path D.node,
        ∃ e ∈ entriesNames allowed chain path cs,
          e.path = q ∧ (q = D.path ∨ e.chainAllowed = false)
  | chain, path, [] => by
    intro D hD
    simp [entriesNames] at hD
  | chain, path, (name, child) :: rest => by
    intro D hD hdir hdis q hq
    simp only [entriesNames, List.mem_append] at hD
    rcases hD with hD | hD
    · rcases entries_below_disallowed allowed chain (Join path name) child D hD hdir hdis q hq
        with ⟨e, he, h1, h2⟩
      exact ⟨e, by simp only [entriesNames, List.mem_append]; exact Or.inl he, h1, h2⟩
    · rcases entriesNames_below_disallowed allowed chain path rest D hD hdir hdis q hq
        with ⟨e, he, h1, h2⟩
      exact ⟨e, by simp only [entriesNames, List.mem_append]; exact Or.inr he, h1, h2⟩
end

theorem entries_of_root_disallowed (allowed : String → Bool) (path : String) (n : Node)
    (h : allowed path = false) :
    ∀ e ∈ entries allowed true path n, e.path = path ∨ e.chainAllowed = false := by
  intro e he
  cases n with
  | lstatError err => simp only [entries, List.mem_singleton] at he; subst he; exact Or.inl rfl
  | file => simp only [entries, List.mem_singleton] at he; subst he; exact Or.inl rfl
  | unreadableDir err =>
    simp only [entries, List.mem_singleton] at he; subst he; exact Or.inl rfl
  | dir children =>
    simp only [entries, List.mem_cons, h, Bool.and_false] at he
    rcases he with rfl | he
    · exact Or.inl rfl
    · exact Or.inr (entriesNames_chain_false allowed path children e he)

theorem ScanFolder_no_client_call (w : World) (tree : Node) (job : Job)
    (h : job.options.createAlbum = false) :
    ∀ ev ∈ (ScanFolder w tree job).1, ev.isClientCall = false := by
  cases hd : w.IsDir job.sourceFolder
  · rw [ScanFolder_of_not_isDir w tree job hd]
    simp
  · rw [ScanFolder_of_isDir w tree job hd]
    exact walk_forall (fun ev => ev.isClientCall = false) _
      (fun fp fi errP => walkFn_no_client_call w job _ h fp fi errP) _ _

/-! ## The claims -/

/-- C1: every task `ScanFolder` publishes has a path for which the filter answered true,
`filesystem.IsFile` answered true and `IsAlreadyUploaded` did not answer `(true, nil)`; in
particular a path for which `IsAlreadyUploaded` answers `(true, nil)` is never published. -/

theorem C1_published_paths_are_accepted (w : World) (tree : Node) (job : Job) :
    (∀ item ∈ sent (ScanFolder w tree job).1,
        (jobFilter w job).IsAllowed item.path = true ∧ w.IsFile item.path = true ∧
          w.IsAlreadyUploaded job.trackingService item.path ≠ (true, none)) ∧
      (∀ F, w.IsAlreadyUploaded job.trackingService F = (true, none) →
        F ∉ sentPaths (ScanFolder w tree job).1) := by
  refine ⟨?_, ?_⟩
  · intro item hi
    rcases ScanFolder_mem_sent w tree job item hi with ⟨e, _, hel, rfl⟩
    exact (accepts_iff w job e.path).1 ((eligible_iff w job e).1 hel).2.2
  · intro F hF hmem
    rcases ScanFolder_mem_sentPaths w tree job F hmem with ⟨e, _, hel, rfl⟩
    exact ((accepts_iff w job e.path).1 ((eligible_iff w job e).1 hel).2.2).2.2 hF

/-- C2: for a directory of the tree that the filter disallows, the function literal returns
`filepath.SkipDir` (whatever error the walk hands it), and, the paths of the tree being
pairwise distinct, no task is published for the directory or for anything below it, at any
depth; if the source folder itself is disallowed, nothing is published at all. -/

theorem C2_disallowed_directory_is_pruned (w : World) (tree : Node) (job : Job) :
    (∀ D ∈ jobEntries w tree job, D.node.isDir = true →
        (jobFilter w job).IsAllowed D.path = false →
        (∀ errP, walkFn w job (jobFilter w job) none D.path (some ⟨true⟩) errP
            = ([.isAllowed D.path], some GoError.SkipDir)) ∧
          ((listing job.sourceFolder tree).Nodup →
            ∀ q ∈ listing D.path D.node, q ∉ sentPaths (ScanFolder w tree job).1)) ∧
      ((jobFilter w job).IsAllowed job.sourceFolder = false →
        sent (ScanFolder w tree job).1 = []) := by
  refine ⟨?_, ?_⟩
  · intro D hD hdir hdis
    refine ⟨?_, ?_⟩
    · intro errP
      simp [walkFn, hdis]
    · intro hnodup q hq hmem
      rcases ScanFolder_mem_sentPaths w tree job q hmem with ⟨e1, he1, hel, hp1⟩
      rcases entries_below_disallowed (jobFilter w job).IsAllowed true job.sourceFolder tree D
        hD hdir hdis q hq with ⟨e2, he2, hp2, hor⟩
      rw [← jobEntries_map_path w tree job] at hnodup
      have heq : e1 = e2 := List.inj_on_of_nodup_map hnodup he1 he2 (hp1.trans hp2.symm)
      have h1 := (eligible_iff w job e1).1 hel
      have h2 := (accepts_iff w job e1.path).1 h1.2.2
      rcases hor with hor | hor
      · rw [hp1, hor, hdis] at h2
        exact Bool.false_ne_true h2.1
      · rw [heq, hor] at h1
        exact Bool.false_ne_true h1.1
  · intro hroot
    apply List.eq_nil_iff_forall_not_mem.2
    intro item hi
    rcases ScanFolder_mem_sent w tree job item hi with ⟨e, he, hel, _⟩
    have h1 := (eligible_iff w job e).1 hel
    have h2 := (accepts_iff w job e.path).1 h1.2.2
    rcases entries_of_root_disallowed (jobFilter w job).IsAllowed job.sourceFolder tree hroot
      e he with hor | hor
    · rw [hor, hroot] at h2
      exact Bool.false_ne_true h2.1
    · rw [hor] at h1
      exact Bool.false_ne_true h1.1

theorem C2_disallowed_directory_is_pruned_witness :
    "/src/raw/a.jpg" ∉ sentPaths (ScanFolder rawWorld rawTree rawJob).1 :=
  ((C2_disallowed_directory_is_pruned rawWorld rawTree rawJob).1
    ⟨"/src/raw", .dir [("a.jpg", .file)], true⟩ (List.Mem.tail _ (List.Mem.head _)) rfl
    (by decide)).2 (by decide) "/src/raw/a.jpg" (by decide)

/-- C3, as stated, fails: `/src/raw/a.jpg` is in the tree, is a regular file, is allowed by
the filter and is not recorded as uploaded, yet no task is published for it, because the
directory `/src/raw` above it is disallowed. -/

theorem C3_counterexample :
    rawWorld.IsDir rawJob.sourceFolder = true ∧
      "/src/raw/a.jpg" ∈ listing rawJob.sourceFolder rawTree ∧
      rawWorld.IsFile "/src/raw/a.jpg" = true ∧
      (jobFilter rawWorld rawJob).IsAllowed "/src/raw/a.jpg" = true ∧
      rawWorld.IsAlreadyUploaded rawJob.trackingService "/src/raw/a.jpg" = (false, none) ∧
      "/src/raw/a.jpg" ∉ sentPaths (ScanFolder rawWorld rawTree rawJob).1 := by
  decide

/-- C3, amended: when the source folder passes the `IsDir` check, every entry of the tree
that has metadata, whose directories from the source folder down to its parent are all
allowed, and whose path is allowed by the filter and a regular file, gets a task published
unless `IsAlreadyUploaded` answers `(true, nil)` for it. -/

theorem C3_allowed_reachable_file_is_published (w : World) (tree : Node) (job : Job)
    (e : Entry) (hdir : w.IsDir job.sourceFolder = true)
    (he : e ∈ jobEntries w tree job) (hchain : e.chainAllowed = true)
    (hinfo : e.node.hasInfo = true)
    (hallowed : (jobFilter w job).IsAllowed e.path = true)
    (hfile : w.IsFile e.path = true)
    (hnew : w.IsAlreadyUploaded job.trackingService e.path ≠ (true, none)) :
    uploadItem w job e.path ∈ sent (ScanFolder w tree job).1 ∧
      e.path ∈ sentPaths (ScanFolder w tree job).1 := by
  have hel : eligible w job e = true :=
    (eligible_iff w job e).2 ⟨hchain, hinfo, (accepts_iff w job e.path).2 ⟨hallowed, hfile, hnew⟩⟩
  have hmem : uploadItem w job e.path ∈ sent (ScanFolder w tree job).1 := by
    rw [ScanFolder_sent w tree job hdir]
    exact List.mem_map.2 ⟨e, List.mem_filter.2 ⟨he, hel⟩, rfl⟩
  exact ⟨hmem, List.mem_map.2 ⟨_, hmem, rfl⟩⟩

theorem C3_allowed_reachable_file_is_published_witness :
    uploadItem vacationWorld vacationJob "/src/vacation/photo1.jpg"
        ∈ sent (ScanFolder vacationWorld vacationTree vacationJob).1 ∧
      "/src/vacation/photo1.jpg"
        ∈ sentPaths (ScanFolder vacationWorld vacationTree vacationJob).1 :=
  C3_allowed_reachable_file_is_published vacationWorld vacationTree vacationJob
    ⟨"/src/vacation/photo1.jpg", .file, true⟩ (by decide)
    (List.Mem.tail _ (List.Mem.tail _ (List.Mem.head _))) rfl rfl (by decide) (by decide)
    (by decide)

/-- C4: `ScanFolder` returns an error exactly when `filesystem.IsDir(job.sourceFolder)` is
false, and then nothing at all has happened: no entry visited, no collaborator called, no
task published. When the source folder is a directory it returns nil, whatever the traversal
does and returns, also when the traversal ends with an error. -/

theorem C4_error_iff_source_not_a_folder (w : World) (job : Job)
    (traverse : String → WalkFunc → List Event × Option GoError) (tree : Node) :
    ((ScanFolderWith w traverse job).2 ≠ none ↔ w.IsDir job.sourceFolder = false) ∧
      (w.IsDir job.sourceFolder = false → (ScanFolderWith w traverse job).1 = []) ∧
      (w.IsDir job.sourceFolder = true → (ScanFolderWith w traverse job).2 = none) ∧
      ((ScanFolder w tree job).2 ≠ none ↔ w.IsDir job.sourceFolder = false) ∧
      (w.IsDir job.sourceFolder = false → (ScanFolder w tree job).1 = []) := by
  have key : ∀ t : String → WalkFunc → List Event × Option GoError,
      ((ScanFolderWith w t job).2 ≠ none ↔ w.IsDir job.sourceFolder = false) ∧
      (w.IsDir job.sourceFolder = false → (ScanFolderWith w t job).1 = []) ∧
      (w.IsDir job.sourceFolder = true → (ScanFolderWith w t job).2 = none) := by
    intro t
    unfold ScanFolderWith
    cases hd : w.IsDir job.sourceFolder
    · simp
    · simp only [Bool.not_true, Bool.false_eq_true, if_false]
      split <;> simp
  exact ⟨(key traverse).1, (key traverse).2.1, (key traverse).2.2, (key (Walk tree)).1,
    (key (Walk tree)).2.1⟩

/-- C5 fails on the code: the function literal never reads the error the walk hands it, so an
entry that carries a traversal error together with metadata is treated like any other. For
the unreadable, disallowed directory `/src/raw` the filter is consulted and the literal
returns `filepath.SkipDir`, not nil. -/

theorem C5_traversal_error_is_not_read :
    (∀ (w : World) (job : Job) (filter : Filter) (err : Option GoError) (fp : String)
        (fi : Option FileInfo) (errP : Option GoError),
        walkFn w job filter err fp fi errP = walkFn w job filter err fp fi none) ∧
      walkFn rawWorld rawJob (jobFilter rawWorld rawJob) none "/src/raw" (some ⟨true⟩)
          (some (.errorString "open /src/raw: permission denied"))
        = ([.isAllowed "/src/raw"], some GoError.SkipDir) ∧
      Event.isAllowed "/src/raw" ∈ (ScanFolder rawWorld lockedTree rawJob).1 ∧
      (∀ (w : World) (job : Job) (filter : Filter) (fp : String) (errP : Option GoError),
        walkFn w job filter none fp none errP
          = ([.stderr ("error for " ++ fp ++ ": FileInfo is nil\n")], none)) := by
  refine ⟨fun _ _ _ _ _ _ _ => rfl, by decide, by decide, fun _ _ _ _ _ => rfl⟩

/-- C6: for an entry with metadata that the filter allows and `IsFile` classifies as a regular
file, when `IsAlreadyUploaded` returns an error (with either boolean) the function literal
logs the error and otherwise does exactly what it does when the answer is `(false, nil)`:
it publishes the task for the entry and returns nil, so the walk goes on. -/

theorem C6_tracking_error_is_not_yet_uploaded (w : World) (job : Job) (fp : String)
    (i : FileInfo) (errP : Option GoError) (b : Bool) (e : GoError)
    (hallowed : (jobFilter w job).IsAllowed fp = true) (hfile : w.IsFile fp = true)
    (herr : w.IsAlreadyUploaded job.trackingService fp = (b, some e)) :
    walkFn w job (jobFilter w job) none fp (some i) errP
        = ([.isAllowed fp, .isAlreadyUploaded job.trackingService fp, .log e.Error]
            ++ (albumID w job fp).1 ++ [.send (uploadItem w job fp)], none) ∧
      walkFn (w.withTracking (false, none)) job (jobFilter w job) none fp (some i) errP
        = ([.isAllowed fp, .isAlreadyUploaded job.trackingService fp]
            ++ (albumID w job fp).1 ++ [.send (uploadItem w job fp)], none) ∧
      sent (walkFn w job (jobFilter w job) none fp (some i) errP).1 = [uploadItem w job fp] ∧
      (∀ child, stops child (walkFn w job (jobFilter w job) none fp (some i) errP).2
        = false) := by
  have h1 : walkFn w job (jobFilter w job) none fp (some i) errP
      = ([.isAllowed fp, .isAlreadyUploaded job.trackingService fp, .log e.Error]
          ++ (albumID w job fp).1 ++ [.send (uploadItem w job fp)], none) := by
    simp [walkFn, hallowed, hfile, herr]
  have h2 : walkFn (w.withTracking (false, none)) job (jobFilter w job) none fp (some i) errP
      = ([.isAllowed fp, .isAlreadyUploaded job.trackingService fp]
          ++ (albumID w job fp).1 ++ [.send (uploadItem w job fp)], none) := by
    have hf : (w.withTracking (false, none)).IsFile fp = true := hfile
    have ha : albumID (w.withTracking (false, none)) job fp = albumID w job fp := rfl
    have hu : uploadItem (w.withTracking (false, none)) job fp = uploadItem w job fp := rfl
    have ht : (w.withTracking (false, none)).IsAlreadyUploaded job.trackingService fp
        = (false, none) := rfl
    simp [walkFn, hallowed, hf, ha, hu, ht]
  refine ⟨h1, h2, ?_, ?_⟩
  · rw [walkFn_sent]
    simp [accepts, alreadyUploaded, hallowed, hfile, herr]
  · intro child
    rw [h1]
    rfl

theorem C6_tracking_error_is_not_yet_uploaded_witness :
    sent (walkFn brokenTrackingWorld vacationJob (jobFilter brokenTrackingWorld vacationJob)
        none "/src/vacation/photo1.jpg" (some ⟨false⟩) none).1
      = [⟨⟨1⟩, "/src/vacation/photo1.jpg", "C1", false⟩] :=
  (C6_tracking_error_is_not_yet_uploaded brokenTrackingWorld vacationJob
    "/src/vacation/photo1.jpg" ⟨false⟩ none true (.errorString "tracking store unavailable")
    (by decide) (by decide) (by decide)).2.2.1.trans (by decide)

/-- C7: `getGooglePhotosAlbumID` returns the empty string without calling the remote client
when the name is empty, and returns the empty string when `GetOrCreateAlbumByName` fails;
so with `createAlbum` set, an entry with metadata that is allowed, a regular file and not
answered `(true, nil)` by the tracking service, and whose parent folder name fails to
resolve, still gets its task published, with the empty album id. -/

theorem C7_album_failure_keeps_the_upload (w : World) (job : Job) :
    (∀ c, getGooglePhotosAlbumID w "" c = ([], "")) ∧
      (∀ name c err, w.GetOrCreateAlbumByName c name = .error err →
        (getGooglePhotosAlbumID w name c).2 = "") ∧
      (∀ fp i errP err, job.options.createAlbum = true →
        (jobFilter w job).IsAllowed fp = true → w.IsFile fp = true →
        w.IsAlreadyUploaded job.trackingService fp ≠ (true, none) →
        w.GetOrCreateAlbumByName job.client (Base (Dir fp)) = .error err →
        sent (walkFn w job (jobFilter w job) none fp (some i) errP).1
            = [⟨job.client, fp, "", job.options.deleteAfterUpload⟩] ∧
          (walkFn w job (jobFilter w job) none fp (some i) errP).2 = none) := by
  refine ⟨fun c => rfl, ?_, ?_⟩
  · intro name c err h
    unfold getGooglePhotosAlbumID
    split
    · rfl
    · simp [h]
  · intro fp i errP err hc hallowed hfile hnew hfail
    refine ⟨?_, ?_⟩
    · rw [walkFn_sent, if_pos ((accepts_iff w job fp).2 ⟨hallowed, hfile, hnew⟩)]
      simp [uploadItem, albumID_of_error w job fp err hc hfail]
    · rw [walkFn_ret]
      simp [hallowed]

theorem C7_album_failure_keeps_the_upload_witness :
    sent (walkFn vacationWorld.withoutAlbums vacationJob
        (jobFilter vacationWorld.withoutAlbums vacationJob) none "/src/vacation/photo1.jpg"
        (some ⟨false⟩) none).1
      = [⟨⟨1⟩, "/src/vacation/photo1.jpg", "", false⟩] :=
  ((C7_album_failure_keeps_the_upload vacationWorld.withoutAlbums vacationJob).2.2
    "/src/vacation/photo1.jpg" ⟨false⟩ none (.errorString "album creation failed") rfl
    (by decide) (by decide) (by decide) rfl).1

/-- C8: a task is published for the path the function literal was called with; every task a
scan publishes has a path of the tree, the job's `deleteAfterUpload` flag and the job's
client; its album id is empty when `createAlbum` is false, and then the remote client is
never called; when `createAlbum` is true it is the Id of the album `GetOrCreateAlbumByName`
returns for the base name of the path's parent directory. In the scenario
`/src/vacation/photo1.jpg` with `vacation` resolving to `C1`, the one task has that path and
album `C1`. -/

theorem C8_published_task_fields (w : World) (tree : Node) (job : Job) :
    (∀ fp fi errP, ∀ item ∈ sent (walkFn w job (jobFilter w job) none fp fi errP).1,
        item.path = fp) ∧
      (∀ item ∈ sent (ScanFolder w tree job).1,
        item.path ∈ listing job.sourceFolder tree ∧
          item.deleteOnSuccess = job.options.deleteAfterUpload ∧
          item.client = job.client ∧
          (job.options.createAlbum = false → item.album = "") ∧
          (job.options.createAlbum = true → ∀ a,
            w.GetOrCreateAlbumByName job.client (Base (Dir item.path)) = .ok a →
            item.album = a.Id)) ∧
      (job.options.createAlbum = false →
        ∀ ev ∈ (ScanFolder w tree job).1, ev.isClientCall = false) ∧
      sent (ScanFolder vacationWorld vacationTree vacationJob).1
        = [⟨vacationJob.client, "/src/vacation/photo1.jpg", "C1", false⟩] := by
  refine ⟨?_, ?_, ScanFolder_no_client_call w tree job, by decide⟩
  · intro fp fi errP item hi
    cases fi with
    | none => simp [walkFn_noInfo, sent_cons_stderr, sent_nil] at hi
    | some i =>
      rw [walkFn_sent] at hi
      split at hi
      · rw [List.mem_singleton.1 hi]
        rfl
      · simp at hi
  · intro item hi
    rcases ScanFolder_mem_sent w tree job item hi with ⟨e, he, _, rfl⟩
    refine ⟨?_, rfl, rfl, ?_, ?_⟩
    · rw [← jobEntries_map_path w tree job]
      exact List.mem_map.2 ⟨e, he, rfl⟩
    · intro hc
      simp [uploadItem, albumID_of_not_createAlbum w job e.path hc]
    · intro hc a ha
      exact albumID_of_ok w job e.path a hc ha

theorem C8_published_task_fields_witness :
    sent (ScanFolder vacationWorld vacationTree vacationJob).1
      = [⟨vacationJob.client, "/src/vacation/photo1.jpg", "C1", false⟩] :=
  (C8_published_task_fields vacationWorld vacationTree vacationJob).2.2.2

/-- C9: the paths of the published tasks, in the order published, are a subsequence of the
pre-order listing of the tree rooted at the source folder. -/

theorem C9_published_in_preorder (w : World) (tree : Node) (job : Job) :
    (sentPaths (ScanFolder w tree job).1).Sublist (listing job.sourceFolder tree) := by
  cases hd : w.IsDir job.sourceFolder
  · rw [ScanFolder_of_not_isDir w tree job hd]
    exact List.nil_sublist _
  · rw [ScanFolder_sentPaths w tree job hd, ← jobEntries_map_path w tree job]
    exact (List.filter_sublist _).map _

/-- C10: for a source folder that passes the `IsDir` check and a tree whose paths are pairwise
distinct, a path is published exactly once when it is the path of an entry that has metadata,
whose directories from the source folder down to its parent are all allowed, and that is
allowed, a regular file and not answered `(true, nil)` by `IsAlreadyUploaded`; it is published
zero times otherwise; and no path is published twice. -/

theorem C10_published_exactly_the_eligible (w : World) (tree : Node) (job : Job)
    (hdir : w.IsDir job.sourceFolder = true)
    (hnodup : (listing job.sourceFolder tree).Nodup) (F : String) :
    ((∃ e ∈ jobEntries w tree job, e.path = F ∧ e.chainAllowed = true ∧
          e.node.hasInfo = true ∧ (jobFilter w job).IsAllowed F = true ∧
          w.IsFile F = true ∧ w.IsAlreadyUploaded job.trackingService F ≠ (true, none)) →
        (sentPaths (ScanFolder w tree job).1).count F = 1) ∧
      ((¬ ∃ e ∈ jobEntries w tree job, e.path = F ∧ e.chainAllowed = true ∧
          e.node.hasInfo = true ∧ (jobFilter w job).IsAllowed F = true ∧
          w.IsFile F = true ∧ w.IsAlreadyUploaded job.trackingService F ≠ (true, none)) →
        (sentPaths (ScanFolder w tree job).1).count F = 0) ∧
      (sentPaths (ScanFolder w tree job).1).Nodup := by
  have hsub : (sentPaths (ScanFolder w tree job).1).Sublist (listing job.sourceFolder tree) := by
    rw [ScanFolder_sentPaths w tree job hdir, ← jobEntries_map_path w tree job]
    exact (List.filter_sublist _).map _
  have hnd : (sentPaths (ScanFolder w tree job).1).Nodup := hsub.nodup hnodup
  refine ⟨?_, ?_, hnd⟩
  · rintro ⟨e, he, rfl, hchain, hinfo, hallowed, hfile, hnew⟩
    apply List.count_eq_one_of_mem hnd
    rw [ScanFolder_sentPaths w tree job hdir]
    exact List.mem_map.2 ⟨e, List.mem_filter.2 ⟨he, (eligible_iff w job e).2
      ⟨hchain, hinfo, (accepts_iff w job e.path).2 ⟨hallowed, hfile, hnew⟩⟩⟩, rfl⟩
  · intro hno
    apply List.count_eq_zero_of_not_mem
    intro hmem
    rcases ScanFolder_mem_sentPaths w tree job F hmem with ⟨e, he, hel, rfl⟩
    have h1 := (eligible_iff w job e).1 hel
    have h2 := (accepts_iff w job e.path).1 h1.2.2
    exact hno ⟨e, he, rfl, h1.1, h1.2.1, h2.1, h2.2.1, h2.2.2⟩

theorem C10_published_exactly_the_eligible_witness :
    (sentPaths (ScanFolder vacationWorld vacationTree vacationJob).1).count
        "/src/vacation/photo1.jpg" = 1 ∧
      (sentPaths (ScanFolder vacationWorld vacationTree vacationJob).1).count
        "/src/vacation/photo2.mp4" = 0 ∧
      (sentPaths (ScanFolder vacationWorld vacationTree vacationJob).1).Nodup := by
  have h1 := C10_published_exactly_the_eligible vacationWorld vacationTree vacationJob
    (by decide) (by decide) "/src/vacation/photo1.jpg"
  have h2 := C10_published_exactly_the_eligible vacationWorld vacationTree vacationJob
    (by decide) (by decide) "/src/vacation/photo2.mp4"
  refine ⟨h1.1 ⟨⟨"/src/vacation/photo1.jpg", .file, true⟩,
    List.Mem.tail _ (List.Mem.tail _ (List.Mem.head _)), rfl, rfl, rfl, by decide, by decide,
    by decide⟩, h2.2.1 ?_, h1.2.2⟩
  rintro ⟨e, _, _, _, _, hallowed, _⟩
  exact absurd hallowed (by decide)

end Upload
